import Mathlib

/-!
Shallow embedding of `src/ConsoleCommandManager.h` (namespace `ConsoleCommand`).

Modelling conventions:
* `std::string` is modelled as Lean `String`; one C++ `char` (byte) corresponds
  to one Lean `Char` (all inputs of interest are ASCII, where the two coincide).
* `std::map<std::string, T>` is modelled as an association list
  `List (String × T)` with `mapSet` (insert-or-assign, `operator[]`) and
  `mapLookup` (`find`); only lookup/membership observations are used, so the
  sortedness of `std::map` is immaterial to the properties proved here.
* The `flags` map (whose values are always `"true"`) is modelled as the list of
  its keys; `hasFlag` is membership, as in the source.
* A handler (`std::function<bool(const CommandContext&)>`) is modelled as
  `CommandContext → Except String Bool`: `.ok b` is a normal return of `b`,
  `.error msg` is a thrown `std::exception` whose `what()` is `msg`.
* The C++ condition `argv[index + 1][0] != '-'` reads the NUL terminator on an
  empty string, which is `≠ '-'`; `strStarts "-" s = false` for the empty
  string matches this exactly.
* The floating comparison `similarity > 0.6` in `isSimilar` (with
  `similarity = matches / max(len a, len b)` computed in `double`) is rendered
  as the exact rational comparison `3 * max < 5 * matches`; IEEE double
  division is correctly rounded, so the two agree for all string lengths that
  can occur.
-/

namespace ConsoleCommand

/-- Length of a C++ string, counted in modelled characters (`s.size()`). -/
def strLen (s : String) : Nat := s.data.length

/-- `s.substr(n)`: drop the first `n` characters. -/
def strDrop (s : String) (n : Nat) : String := String.mk (s.data.drop n)

/-- `s.substr(0, p.length) == p`: does `s` start with `p`? -/
def strStarts (p s : String) : Bool := p.data.isPrefixOf s.data

/-- `std::map` insert-or-assign (`m[k] = v`). -/
def mapSet {α : Type} : List (String × α) → String → α → List (String × α)
  | [], k, v => [(k, v)]
  | (k', v') :: rest, k, v =>
      if k' = k then (k, v) :: rest else (k', v') :: mapSet rest k v

/-- `std::map` lookup (`m.find(k)`). -/
def mapLookup {α : Type} : List (String × α) → String → Option α
  | [], _ => none
  | (k', v') :: rest, k => if k' = k then some v' else mapLookup rest k

/-- Insert a key into the flags map (`flags[f] = "true"`), observed as a set. -/
def addFlagList (fs : List String) (f : String) : List String :=
  if f ∈ fs then fs else fs ++ [f]

/-- `CommandContext`: the structured invocation built by the parser
(`commandName`, `options`, `flags`, positional `args`). -/
structure CommandContext where
  commandName : String := ""
  options : List (String × String) := []
  flags : List String := []
  args : List String := []

/-- `CommandContext::hasFlag`. -/
def CommandContext.hasFlag (ctx : CommandContext) (f : String) : Bool :=
  f ∈ ctx.flags

/-- `CommandContext::getOption` (the `std::optional` overload). -/
def CommandContext.getOption (ctx : CommandContext) (k : String) : Option String :=
  mapLookup ctx.options k

/-- `CommandContext::getArgument(index, defaultValue)`; the C++ default for
`defaultValue` is `""`. -/
def CommandContext.getArgument (ctx : CommandContext) (index : Nat)
    (defaultValue : String) : String :=
  if h : index < ctx.args.length then ctx.args.get ⟨index, h⟩ else defaultValue

/-- `CommandContext::argumentCount`. -/
def CommandContext.argumentCount (ctx : CommandContext) : Nat := ctx.args.length

/-- `opt.find('=')` followed by the two `substr` calls in `parseLongOption`:
split at the first `'='`, returning `none` when there is none. -/
def splitAtFirstEq : List Char → Option (List Char × List Char)
  | [] => none
  | c :: cs =>
      if c = '=' then some ([], cs)
      else
        match splitAtFirstEq cs with
        | some (k, v) => some (c :: k, v)
        | none => none

/-- `CommandContext::parseLongOption` (the `"--"` prefix already stripped).
`next?` is the following token, when any; the returned `Bool` records whether
that token was consumed as the option's value (`++index` in the source). -/
def parseLongOption (opt : String) (next? : Option String)
    (ctx : CommandContext) : CommandContext × Bool :=
  match splitAtFirstEq opt.data with
  | some (k, v) =>
      ({ ctx with options := mapSet ctx.options (String.mk k) (String.mk v) }, false)
  | none =>
      match next? with
      | some next =>
          if strStarts "-" next then
            ({ ctx with flags := addFlagList ctx.flags opt }, false)
          else
            ({ ctx with options := mapSet ctx.options opt next }, true)
      | none => ({ ctx with flags := addFlagList ctx.flags opt }, false)

/-- `CommandContext::parseShortOption` (the `"-"` prefix already stripped). -/
def parseShortOption (opt : String) (next? : Option String)
    (ctx : CommandContext) : CommandContext × Bool :=
  match opt.data with
  | [] => (ctx, false)
  | [c] =>
      match next? with
      | some next =>
          if strStarts "-" next then
            ({ ctx with flags := addFlagList ctx.flags (String.mk [c]) }, false)
          else
            ({ ctx with options := mapSet ctx.options (String.mk [c]) next }, true)
      | none => ({ ctx with flags := addFlagList ctx.flags (String.mk [c]) }, false)
  | cs =>
      ({ ctx with flags := cs.foldl (fun fs c => addFlagList fs (String.mk [c])) ctx.flags }, false)

/-- The scanning loop of `CommandContext::parseArgs` over tokens 1..argc-1.
The source advances an index and may `++index` to skip a consumed value; here
a consumed value is skipped via the `skip` argument on the next step. -/
def parseLoopAux (ctx : CommandContext) (skip : Bool) : List String → CommandContext
  | [] => ctx
  | arg :: rest =>
      if skip then parseLoopAux ctx false rest
      else if arg = "--" then { ctx with args := ctx.args ++ rest }
      else if 2 < strLen arg ∧ strStarts "--" arg = true then
        let r := parseLongOption (strDrop arg 2) rest.head? ctx
        parseLoopAux r.1 r.2 rest
      else if 1 < strLen arg ∧ strStarts "-" arg = true then
        let r := parseShortOption (strDrop arg 1) rest.head? ctx
        parseLoopAux r.1 r.2 rest
      else parseLoopAux { ctx with args := ctx.args ++ [arg] } false rest

/-- `CommandContext::parseArgs`: token 0 is the command name, the rest is
scanned by the loop. -/
def parseArgs : List String → CommandContext
  | [] => {}
  | cmd :: rest => parseLoopAux { commandName := cmd } false rest

/-- `ParameterDefinition`: a declared positional parameter. -/
structure ParameterDefinition where
  name : String := ""
  description : String := ""
  required : Bool := false
  defaultValue : String := ""
  type : String := "string"

/-- `OptionDefinition`: a declared option. -/
structure OptionDefinition where
  name : String := ""
  shortName : String := ""
  description : String := ""
  requiresValue : Bool := false
  defaultValue : String := ""
  valueType : String := ""

/-- `CommandDefinition`: the registry entry schema. The executor models
`std::function<bool(const CommandContext&)>`; see the header comment. -/
structure CommandDefinition where
  name : String := ""
  description : String := ""
  category : String := "General"
  usage : String := ""
  aliases : List String := []
  parameters : List ParameterDefinition := []
  options : List OptionDefinition := []
  executor : Option (CommandContext → Except String Bool) := none

/-- `CommandDefinition::addAlias` (`aliases.push_back(alias)`). -/
def CommandDefinition.addAlias (d : CommandDefinition) (a : String) : CommandDefinition :=
  { d with aliases := d.aliases ++ [a] }

/-- `CommandDefinition::execute`: run the executor if set, else return `false`;
an exception escaping the executor is an `Except.error`. -/
def CommandDefinition.execute (d : CommandDefinition) (ctx : CommandContext) :
    Except String Bool :=
  match d.executor with
  | some f => f ctx
  | none => Except.ok false

/-- `CommandDefinition::hasVariadicParameters`
(`!parameters.empty() && parameters.back().name == "..."`). -/
def CommandDefinition.hasVariadicParameters (d : CommandDefinition) : Bool :=
  match d.parameters.getLast? with
  | some p => p.name == "..."
  | none => false

/-- The required-parameter scan of `validateArguments`: walk the declared
parameters, `i` being the absolute 0-based position, and return the name of
the first parameter with `required && i >= argCount`. -/
def missingRequired : List ParameterDefinition → Nat → Nat → Option String
  | [], _, _ => none
  | p :: ps, i, argCount =>
      if p.required = true ∧ argCount ≤ i then some p.name
      else missingRequired ps (i + 1) argCount

/-- `CommandDefinition::validateArguments`: `none` means the validation passed,
`some msg` is the error message stored into `errorMsg`. -/
def CommandDefinition.validateArguments (d : CommandDefinition)
    (ctx : CommandContext) : Option String :=
  match missingRequired d.parameters 0 ctx.args.length with
  | some n => some ("缺少必需参数: " ++ n)
  | none =>
      if d.hasVariadicParameters = false ∧ d.parameters.length < ctx.args.length then
        some ("参数数量过多，最多允许 " ++ toString d.parameters.length ++ " 个参数")
      else none

/-- The state of a `CommandManager`: the three registry maps plus the
`maxSuggestions` configuration knob (default `DEFAULT_MAX_SUGGESTIONS = 5`). -/
structure CommandManagerState where
  commands : List (String × CommandDefinition) := []
  aliasToCommand : List (String × String) := []
  categoryToCommands : List (String × List String) := []
  maxSuggestions : Nat := 5

/-- `categoryToCommands[cat].push_back(nm)`: `operator[]` default-constructs a
missing entry, then the name is appended. -/
def catAppend (m : List (String × List String)) (cat nm : String) :
    List (String × List String) :=
  match mapLookup m cat with
  | some l => mapSet m cat (l ++ [nm])
  | none => m ++ [(cat, [nm])]

/-- `CommandManager::registerCommand`: reject an empty name; otherwise replace
in `commands`, install each non-empty, non-self alias, and append the name to
its category list. -/
def registerCommand (st : CommandManagerState) (cmd : CommandDefinition) :
    CommandManagerState × Bool :=
  if cmd.name = "" then (st, false)
  else
    ({ st with
        commands := mapSet st.commands cmd.name cmd,
        aliasToCommand :=
          cmd.aliases.foldl
            (fun m a => if a ≠ "" ∧ a ≠ cmd.name then mapSet m a cmd.name else m)
            st.aliasToCommand,
        categoryToCommands := catAppend st.categoryToCommands cmd.category cmd.name },
      true)

/-- `CommandManager::createCommand(name, description)`: store a fresh entry in
`commands` and append the name to its (default `"General"`) category list;
the alias map is not touched. -/
def createCommand (st : CommandManagerState) (nm descr : String) :
    CommandManagerState :=
  let cmd : CommandDefinition := { name := nm, description := descr }
  { st with
      commands := mapSet st.commands nm cmd,
      categoryToCommands := catAppend st.categoryToCommands cmd.category nm }

/-- Calling `addAlias(a)` on the reference returned by `createCommand(nm, _)`:
it mutates the stored entry's `aliases` vector in place and nothing else. -/
def addAliasToStored (st : CommandManagerState) (nm a : String) :
    CommandManagerState :=
  match mapLookup st.commands nm with
  | some cmd => { st with commands := mapSet st.commands nm (cmd.addAlias a) }
  | none => st

/-- `CommandManager::findCommand`: direct lookup, then through the alias map. -/
def findCommand (st : CommandManagerState) (nm : String) : Option CommandDefinition :=
  match mapLookup st.commands nm with
  | some d => some d
  | none =>
      match mapLookup st.aliasToCommand nm with
      | some primary => mapLookup st.commands primary
      | none => none

/-- `CommandManager::getCommandList`: the keys of `commands`. -/
def getCommandList (st : CommandManagerState) : List String :=
  st.commands.map Prod.fst

/-- Aligned equal characters up to the shorter length
(the `matches` loop of `isSimilar`). -/
def matchCount : List Char → List Char → Nat
  | x :: xs, y :: ys => (if x = y then 1 else 0) + matchCount xs ys
  | _, _ => 0

/-- `CommandManager::isSimilar`; the floating comparison is rendered exactly
(see the header comment). -/
def isSimilar (a b : String) : Bool :=
  if a.data.isEmpty || b.data.isEmpty then false
  else if a.data.isPrefixOf b.data then true
  else if 2 < max (strLen a) (strLen b) - min (strLen a) (strLen b) then false
  else if 3 * max (strLen a) (strLen b) < 5 * matchCount a.data b.data then true
  else false

/-- The suggestion loop of `CommandManager::handleUnknownCommand`: push each
similar candidate, breaking once `suggestions.size() >= limit` (checked after
the push). -/
def suggestLoop (q : String) (limit : Nat) :
    List String → List String → List String
  | acc, [] => acc
  | acc, c :: cs =>
      if isSimilar q c then
        if limit ≤ acc.length + 1 then acc ++ [c]
        else suggestLoop q limit (acc ++ [c]) cs
      else suggestLoop q limit acc cs

/-- The suggestion scan over a candidate list, starting from no matches. -/
def collectSuggestions (q : String) (candidates : List String) (limit : Nat) :
    List String :=
  suggestLoop q limit [] candidates

/-- The observable outcome of one `processCommand` call: which terminal branch
of the dispatcher ran, carrying what that branch reports. -/
inductive DispatchOutcome where
  | emptyCommand : DispatchOutcome
  | unknownCommand (suggestions : List String) : DispatchOutcome
  | helpShown (entry : CommandDefinition) : DispatchOutcome
  | validationFailed (msg : String) : DispatchOutcome
  | handlerRan (result : Except String Bool) : DispatchOutcome

/-- `CommandManager::processCommand`: empty-name no-op, resolve, help
interception, validation, then handler invocation inside `try/catch`. -/
def processCommand (st : CommandManagerState) (ctx : CommandContext) :
    DispatchOutcome :=
  if ctx.commandName = "" then .emptyCommand
  else
    match findCommand st ctx.commandName with
    | none =>
        .unknownCommand
          (collectSuggestions ctx.commandName (getCommandList st) st.maxSuggestions)
    | some cmdDef =>
        if ctx.hasFlag "h" || ctx.hasFlag "help" then .helpShown cmdDef
        else
          match cmdDef.validateArguments ctx with
          | some msg => .validationFailed msg
          | none => .handlerRan (cmdDef.execute ctx)

/-- The `bool` returned by `processCommand` for each outcome: a caught handler
fault becomes `false` after printing the fault's message. -/
def outcomeResult : DispatchOutcome → Bool
  | .emptyCommand => true
  | .unknownCommand _ => false
  | .helpShown _ => true
  | .validationFailed _ => false
  | .handlerRan (Except.ok b) => b
  | .handlerRan (Except.error _) => false

/-- The `bool` result of one `processCommand` call. -/
def processResult (st : CommandManagerState) (ctx : CommandContext) : Bool :=
  outcomeResult (processCommand st ctx)

/-! ### Helper lemmas about the association-list map model -/

lemma mapLookup_mapSet_self {α : Type} (m : List (String × α)) (k : String) (v : α) :
    mapLookup (mapSet m k v) k = some v := by
  induction m with
  | nil => simp [mapSet, mapLookup]
  | cons p rest ih =>
      obtain ⟨k', v'⟩ := p
      by_cases h : k' = k
      · subst h; simp [mapSet, mapLookup]
      · simp [mapSet, mapLookup, h, ih]

lemma mapLookup_mapSet_ne {α : Type} (m : List (String × α)) {k k₂ : String}
    (v : α) (h : k₂ ≠ k) : mapLookup (mapSet m k v) k₂ = mapLookup m k₂ := by
  induction m with
  | nil => simp [mapSet, mapLookup, Ne.symm h]
  | cons p rest ih =>
      obtain ⟨k', v'⟩ := p
      by_cases hk : k' = k
      · subst hk
        simp [mapSet, mapLookup, Ne.symm h]
      · simp [mapSet, mapLookup, hk, ih]

lemma mapLookup_eq_none_of_not_mem {α : Type} {m : List (String × α)} {k : String}
    (h : k ∉ m.map Prod.fst) : mapLookup m k = none := by
  induction m with
  | nil => simp [mapLookup]
  | cons p rest ih =>
      obtain ⟨k', v'⟩ := p
      simp only [List.map_cons, List.mem_cons] at h
      push_neg at h
      simp [mapLookup, Ne.symm h.1, ih h.2]

lemma keys_mapSet {α : Type} (m : List (String × α)) (k : String) (v : α) :
    (mapSet m k v).map Prod.fst =
      if k ∈ m.map Prod.fst then m.map Prod.fst else m.map Prod.fst ++ [k] := by
  induction m with
  | nil => simp [mapSet]
  | cons p rest ih =>
      obtain ⟨k', v'⟩ := p
      by_cases h : k' = k
      · subst h; simp [mapSet]
      · simp only [mapSet, if_neg h, List.map_cons, ih, List.mem_cons]
        by_cases hm : k ∈ rest.map Prod.fst
        · simp [hm, Ne.symm h]
        · simp [hm, Ne.symm h]

lemma nodup_keys_mapSet {α : Type} {m : List (String × α)} {k : String} {v : α}
    (h : (m.map Prod.fst).Nodup) : ((mapSet m k v).map Prod.fst).Nodup := by
  rw [keys_mapSet]
  by_cases hm : k ∈ m.map Prod.fst
  · simpa [hm] using h
  · simp only [hm, if_false]
    simpa [List.nodup_append, hm] using h

lemma mem_keys_mapSet {α : Type} (m : List (String × α)) (k : String) (v : α) :
    k ∈ (mapSet m k v).map Prod.fst := by
  rw [keys_mapSet]
  by_cases hm : k ∈ m.map Prod.fst <;> simp [hm]

lemma mapLookup_append_none {α : Type} {m : List (String × α)} {k : String}
    (l : List (String × α)) (h : mapLookup m k = none) :
    mapLookup (m ++ l) k = mapLookup l k := by
  induction m with
  | nil => simp
  | cons p rest ih =>
      obtain ⟨k', v'⟩ := p
      by_cases hk : k' = k
      · simp [mapLookup, hk] at h
      · simp only [mapLookup, if_neg hk] at h
        simpa [mapLookup, hk] using ih h

/-! ### C10 — getArgument is total -/

/-- C10: `getArgument(index, defaultValue)` is total: it returns the stored
positional argument whenever `index < argumentCount()`, and `defaultValue` for
every out-of-range index (in C++ `defaultValue` defaults to `""`); being a
total Lean function it can neither fault nor read out of bounds. -/
theorem getArgument_total (ctx : CommandContext) (i : Nat) (dv : String) :
    (∀ h : i < ctx.argumentCount, ctx.getArgument i dv = ctx.args.get ⟨i, h⟩)
    ∧ (ctx.argumentCount ≤ i → ctx.getArgument i dv = dv) := by
  constructor
  · intro h
    simp [CommandContext.getArgument, CommandContext.argumentCount] at h ⊢
    simp [h]
  · intro h
    have h' : ¬ i < ctx.args.length := by
      simp [CommandContext.argumentCount] at h; omega
    simp [CommandContext.getArgument, h']

/-- Witness for C10 at a concrete context: index 1 is in range, index 5 out of
range and falling back to the default. -/
theorem getArgument_total_witness :
    ((parseArgs ["cp", "a", "b"]).getArgument 1 "" = "b")
    ∧ ((parseArgs ["cp", "a", "b"]).getArgument 5 "dflt" = "dflt") := by
  refine ⟨?_, ?_⟩
  · have h := (getArgument_total (parseArgs ["cp", "a", "b"]) 1 "").1 (by decide)
    simpa using h
  · exact (getArgument_total (parseArgs ["cp", "a", "b"]) 5 "dflt").2 (by decide)

/-! ### C8 — the "--" terminator -/

/-- C8: on the exact token `"--"` the scanner appends every remaining token —
dash-prefixed ones included — verbatim and in order to the positionals and
stops, leaving options, flags and the command name untouched; in particular
`parse(["cmd","--","-a","-b"]).positionals == ["-a","-b"]`. -/
theorem terminator_spec (ctx : CommandContext) (rest : List String) :
    (parseLoopAux ctx false ("--" :: rest)).args = ctx.args ++ rest
    ∧ (parseLoopAux ctx false ("--" :: rest)).options = ctx.options
    ∧ (parseLoopAux ctx false ("--" :: rest)).flags = ctx.flags
    ∧ (parseLoopAux ctx false ("--" :: rest)).commandName = ctx.commandName
    ∧ (parseArgs ["cmd", "--", "-a", "-b"]).args = ["-a", "-b"] := by
  refine ⟨rfl, rfl, rfl, rfl, by decide⟩

/-- Witness for C8 at a concrete state and remainder. -/
theorem terminator_spec_witness :
    (parseLoopAux { commandName := "cmd" } false ["--", "-a", "-b"]).args = ["-a", "-b"] := by
  have h := (terminator_spec { commandName := "cmd" } ["-a", "-b"]).1
  simpa using h

/-! ### C5 — the handler boundary -/

/-- C5: once an invocation resolves to a registered command and passes
validation (by the dispatch order, validation only runs when help was not
intercepted), `processCommand` reaches the handler; the call succeeds iff the
handler returned `true`, and a fault raised inside the handler is absorbed at
this boundary into a failure outcome carrying the fault's message —
`processCommand` is a total function, so nothing propagates past it. -/
theorem dispatch_handler_boundary (st : CommandManagerState) (ctx : CommandContext)
    (cmdDef : CommandDefinition)
    (hname : ctx.commandName ≠ "")
    (hres : findCommand st ctx.commandName = some cmdDef)
    (hh : ctx.hasFlag "h" = false) (hhelp : ctx.hasFlag "help" = false)
    (hval : cmdDef.validateArguments ctx = none) :
    processCommand st ctx = .handlerRan (cmdDef.execute ctx)
    ∧ (processResult st ctx = true ↔ cmdDef.execute ctx = Except.ok true)
    ∧ (∀ msg, cmdDef.execute ctx = Except.error msg →
        processCommand st ctx = .handlerRan (Except.error msg)
        ∧ processResult st ctx = false) := by
  have hp : processCommand st ctx = .handlerRan (cmdDef.execute ctx) := by
    simp [processCommand, hname, hres, hh, hhelp, hval]
  refine ⟨hp, ?_, ?_⟩
  · rw [processResult, hp]
    cases hex : cmdDef.execute ctx with
    | ok b => cases b <;> simp [outcomeResult]
    | error e => simp [outcomeResult]
  · intro msg hmsg
    rw [processResult, hp, hmsg]
    exact ⟨rfl, rfl⟩

/-- A command whose handler always raises a fault, and a registry holding it. -/
def faultDef : CommandDefinition :=
  { name := "boom", executor := some (fun _ => Except.error "kaput") }

/-- Registry state with only `faultDef` registered. -/
def faultState : CommandManagerState := (registerCommand {} faultDef).1

/-- Witness for C5: a fault (`"kaput"`) raised inside the handler is caught
and reported, and the call fails without escaping `processCommand`. -/
theorem dispatch_handler_boundary_witness :
    processCommand faultState (parseArgs ["boom"]) =
      .handlerRan (Except.error "kaput")
    ∧ processResult faultState (parseArgs ["boom"]) = false := by
  exact
    (dispatch_handler_boundary faultState (parseArgs ["boom"]) faultDef
      (by decide) rfl (by decide) (by decide) rfl).2.2 "kaput" rfl

/-! ### C1 — help interception -/

/-- C1 (amended): for every registered command, `processCommand` on an
invocation whose parsed `flags` set contains `"h"` or `"help"` reports the
resolved entry's detailed help and returns success, bypassing argument
validation and the handler (the outcome is `helpShown`, reached before either
runs, whatever they would do); this holds regardless of whether the command
declares those options. The raw tokens `-h`/`--help` produce such a flag only
when they parse in flag position — not when followed by a token that does not
start with `-` (then they become an option with a value) and not after `--`
(then they are positional) — so not every argument vector containing the token
`"--help"` or `"-h"` takes the help path. -/
theorem help_interception (st : CommandManagerState) (ctx : CommandContext)
    (cmdDef : CommandDefinition)
    (hname : ctx.commandName ≠ "")
    (hres : findCommand st ctx.commandName = some cmdDef)
    (hflag : ctx.hasFlag "h" = true ∨ ctx.hasFlag "help" = true) :
    processCommand st ctx = .helpShown cmdDef ∧ processResult st ctx = true := by
  have hb : (ctx.hasFlag "h" || ctx.hasFlag "help") = true := by
    rcases hflag with h | h <;> simp [h]
  have hp : processCommand st ctx = .helpShown cmdDef := by
    simp [processCommand, hname, hres, hb]
  exact ⟨hp, by rw [processResult, hp]; rfl⟩

/-- A command with a required parameter and a faulting handler: on the help
path neither the (failing) validation nor the (faulting) handler matters. -/
def helpDemoDef : CommandDefinition :=
  { name := "run",
    parameters := [{ name := "src", required := true }],
    executor := some (fun _ => Except.error "boom") }

/-- Registry state with only `helpDemoDef` registered. -/
def helpDemoState : CommandManagerState := (registerCommand {} helpDemoDef).1

/-- Witness for C1: `run -h` takes the help path and succeeds even though
validation would fail (`src` is missing) and the handler would fault. -/
theorem help_interception_witness :
    processCommand helpDemoState (parseArgs ["run", "-h"]) = .helpShown helpDemoDef
    ∧ processResult helpDemoState (parseArgs ["run", "-h"]) = true
    ∧ helpDemoDef.validateArguments (parseArgs ["run", "-h"]) =
        some "缺少必需参数: src" := by
  have h :=
    help_interception helpDemoState (parseArgs ["run", "-h"]) helpDemoDef
      (by decide) rfl (Or.inl (by decide))
  exact ⟨h.1, h.2, rfl⟩

/-- Registry state with a single parameterless command `run`. -/
def helpCxState : CommandManagerState := (registerCommand {} { name := "run" }).1

/-- Counterexample to C1 as stated: the argument vector
`["run", "--help", "x"]` contains the raw token `"--help"`, yet the parser
stores `options["help"] = "x"` and sets no `help`/`h` flag, so the dispatcher
runs the handler path and the call fails instead of showing help and
succeeding. -/
theorem help_token_not_intercepted_cx :
    (parseArgs ["run", "--help", "x"]).hasFlag "help" = false
    ∧ (parseArgs ["run", "--help", "x"]).hasFlag "h" = false
    ∧ (parseArgs ["run", "--help", "x"]).getOption "help" = some "x"
    ∧ processCommand helpCxState (parseArgs ["run", "--help", "x"]) =
        .handlerRan (Except.ok false)
    ∧ processResult helpCxState (parseArgs ["run", "--help", "x"]) = false := by
  exact ⟨by decide, by decide, by decide, rfl, rfl⟩

/-! ### C2 — argument validation -/

lemma missingRequired_eq_none (ps : List ParameterDefinition) (c : Nat) :
    ∀ i, missingRequired ps i c = none ↔
      ∀ j (h : j < ps.length), (ps.get ⟨j, h⟩).required = true → i + j < c := by
  induction ps with
  | nil => intro i; simp [missingRequired]
  | cons p ps ih =>
      intro i
      by_cases hc : p.required = true ∧ c ≤ i
      · simp only [missingRequired, if_pos hc]
        constructor
        · intro h; exact absurd h (by simp)
        · intro h
          have h0 := h 0 (by simp) (by simpa using hc.1)
          omega
      · simp only [missingRequired, if_neg hc]
        rw [ih (i + 1)]
        constructor
        · intro h j hj hreq
          match j with
          | 0 =>
              have hp : p.required = true := by simpa using hreq
              have : ¬ c ≤ i := fun hle => hc ⟨hp, hle⟩
              omega
          | j + 1 =>
              have hj' : j < ps.length := by simpa using hj
              have := h j hj' (by simpa using hreq)
              omega
        · intro h j hj hreq
          have := h (j + 1) (by simpa using Nat.succ_lt_succ hj) (by simpa using hreq)
          omega

lemma missingRequired_attains (ps : List ParameterDefinition) (c : Nat) :
    ∀ i, (∃ j, ∃ h : j < ps.length, (ps.get ⟨j, h⟩).required = true ∧ c ≤ i + j) →
      ∃ j, ∃ h : j < ps.length, (ps.get ⟨j, h⟩).required = true ∧ c ≤ i + j ∧
        missingRequired ps i c = some ((ps.get ⟨j, h⟩).name) := by
  induction ps with
  | nil =>
      intro i h
      obtain ⟨j, hj, _⟩ := h
      exact absurd hj (by simp)
  | cons p ps ih =>
      intro i h
      by_cases hc : p.required = true ∧ c ≤ i
      · refine ⟨0, by simp, by simpa using hc.1, by simpa using hc.2, ?_⟩
        simp [missingRequired, hc]
      · obtain ⟨j, hj, hreq, hle⟩ := h
        match j with
        | 0 =>
            exact absurd ⟨by simpa using hreq, by simpa using hle⟩ hc
        | j + 1 =>
            have hj' : j < ps.length := by simpa using hj
            obtain ⟨j₂, hj₂, hreq₂, hle₂, heq₂⟩ :=
              ih (i + 1) ⟨j, hj', by simpa using hreq, by omega⟩
            refine ⟨j₂ + 1, by simpa using Nat.succ_lt_succ hj₂,
              by simpa using hreq₂, by omega, ?_⟩
            simp only [missingRequired, if_neg hc, heq₂]
            simp

lemma hasVariadic_eq_false_iff (d : CommandDefinition) :
    d.hasVariadicParameters = false ↔
      ∀ p, d.parameters.getLast? = some p → p.name ≠ "..." := by
  cases h : d.parameters.getLast? with
  | none => simp [CommandDefinition.hasVariadicParameters, h]
  | some p => simp [CommandDefinition.hasVariadicParameters, h]

/-- C2: `validateArguments` fails, naming the parameter in the message,
exactly when some declared parameter at 0-based position `j` is required and
fewer than `j+1` positionals were supplied; when every required parameter is
supplied it fails with the too-many-arguments diagnostic — whose bound is the
number of declared parameters — exactly when the positional count exceeds the
number of declared parameters and the last declared parameter (if any) is not
the variadic sentinel `"..."`; in all other cases it succeeds. -/
theorem validateArguments_spec (d : CommandDefinition) (ctx : CommandContext) :
    ((∃ j, ∃ h : j < d.parameters.length,
        (d.parameters.get ⟨j, h⟩).required = true ∧ ctx.args.length < j + 1) →
      ∃ j, ∃ h : j < d.parameters.length,
        (d.parameters.get ⟨j, h⟩).required = true ∧ ctx.args.length < j + 1 ∧
        d.validateArguments ctx =
          some ("缺少必需参数: " ++ (d.parameters.get ⟨j, h⟩).name))
    ∧ ((¬ ∃ j, ∃ h : j < d.parameters.length,
          (d.parameters.get ⟨j, h⟩).required = true ∧ ctx.args.length < j + 1) →
        (d.validateArguments ctx =
            some ("参数数量过多，最多允许 " ++ toString d.parameters.length ++ " 个参数")
          ↔ d.parameters.length < ctx.args.length ∧
              ∀ p, d.parameters.getLast? = some p → p.name ≠ "...")
        ∧ (d.validateArguments ctx = none
          ↔ ¬ (d.parameters.length < ctx.args.length ∧
                ∀ p, d.parameters.getLast? = some p → p.name ≠ "..."))) := by
  constructor
  · intro hex
    obtain ⟨j, hj, hreq, hlt⟩ := hex
    obtain ⟨j₂, hj₂, hreq₂, hle₂, heq₂⟩ :=
      missingRequired_attains d.parameters ctx.args.length 0 ⟨j, hj, hreq, by omega⟩
    exact ⟨j₂, hj₂, hreq₂, by omega,
      by simp [CommandDefinition.validateArguments, heq₂]⟩
  · intro hnot
    push_neg at hnot
    have hnone : missingRequired d.parameters 0 ctx.args.length = none := by
      rw [missingRequired_eq_none]
      intro j h hreq
      have := hnot j h hreq
      omega
    have hvi := hasVariadic_eq_false_iff d
    by_cases hc : d.hasVariadicParameters = false ∧ d.parameters.length < ctx.args.length
    · have hval : d.validateArguments ctx =
          some ("参数数量过多，最多允许 " ++ toString d.parameters.length ++ " 个参数") := by
        simp [CommandDefinition.validateArguments, hnone, hc]
      constructor
      · rw [hval]
        exact ⟨fun _ => ⟨hc.2, hvi.mp hc.1⟩, fun _ => rfl⟩
      · rw [hval]
        constructor
        · intro h; exact absurd h (by simp)
        · intro h; exact absurd ⟨hc.2, hvi.mp hc.1⟩ h
    · have hval : d.validateArguments ctx = none := by
        simp [CommandDefinition.validateArguments, hnone, hc]
      constructor
      · rw [hval]
        constructor
        · intro h; exact absurd h (by simp)
        · intro h; exact absurd ⟨hvi.mpr h.2, h.1⟩ hc
      · rw [hval]
        exact ⟨fun _ h => hc ⟨hvi.mpr h.2, h.1⟩, fun _ => rfl⟩

/-- A command with one required parameter, used to exercise validation. -/
def arityDemoDef : CommandDefinition :=
  { name := "copy", parameters := [{ name := "src", required := true }] }

/-- Witness for C2: the characterisation instantiated at `arityDemoDef` and an
invocation with no positionals (where the required parameter is missing). -/
theorem validateArguments_spec_witness :
    ((∃ j, ∃ h : j < arityDemoDef.parameters.length,
        (arityDemoDef.parameters.get ⟨j, h⟩).required = true
        ∧ (parseArgs ["copy"]).args.length < j + 1) →
      ∃ j, ∃ h : j < arityDemoDef.parameters.length,
        (arityDemoDef.parameters.get ⟨j, h⟩).required = true
        ∧ (parseArgs ["copy"]).args.length < j + 1
        ∧ arityDemoDef.validateArguments (parseArgs ["copy"]) =
            some ("缺少必需参数: " ++ (arityDemoDef.parameters.get ⟨j, h⟩).name))
    ∧ ((¬ ∃ j, ∃ h : j < arityDemoDef.parameters.length,
          (arityDemoDef.parameters.get ⟨j, h⟩).required = true
          ∧ (parseArgs ["copy"]).args.length < j + 1) →
        (arityDemoDef.validateArguments (parseArgs ["copy"]) =
            some ("参数数量过多，最多允许 "
              ++ toString arityDemoDef.parameters.length ++ " 个参数")
          ↔ arityDemoDef.parameters.length < (parseArgs ["copy"]).args.length ∧
              ∀ p, arityDemoDef.parameters.getLast? = some p → p.name ≠ "...")
        ∧ (arityDemoDef.validateArguments (parseArgs ["copy"]) = none
          ↔ ¬ (arityDemoDef.parameters.length < (parseArgs ["copy"]).args.length ∧
                ∀ p, arityDemoDef.parameters.getLast? = some p → p.name ≠ "..."))) :=
  validateArguments_spec arityDemoDef (parseArgs ["copy"])

/-! ### C3 — re-registration under an existing name -/

lemma aliasFold_preserves (nm a : String) :
    ∀ (as : List String) (m : List (String × String)), mapLookup m a = some nm →
      mapLookup
        (as.foldl (fun m x => if x ≠ "" ∧ x ≠ nm then mapSet m x nm else m) m) a
        = some nm := by
  intro as
  induction as with
  | nil => intro m h; simpa using h
  | cons x as ih =>
      intro m h
      simp only [List.foldl_cons]
      apply ih
      by_cases hx : x ≠ "" ∧ x ≠ nm
      · rw [if_pos hx]
        by_cases hxa : x = a
        · subst hxa; exact mapLookup_mapSet_self m x nm
        · rw [mapLookup_mapSet_ne m nm (fun he => hxa he.symm)]; exact h
      · rw [if_neg hx]; exact h

lemma aliasFold_sets (nm a : String) (ha : a ≠ "") (han : a ≠ nm) :
    ∀ (as : List String) (m : List (String × String)), a ∈ as →
      mapLookup
        (as.foldl (fun m x => if x ≠ "" ∧ x ≠ nm then mapSet m x nm else m) m) a
        = some nm := by
  intro as
  induction as with
  | nil => intro m h; simp at h
  | cons x as ih =>
      intro m hmem
      simp only [List.foldl_cons]
      rcases List.mem_cons.mp hmem with hx | hx
      · subst hx
        apply aliasFold_preserves
        rw [if_pos ⟨ha, han⟩]
        exact mapLookup_mapSet_self _ _ _
      · exact ih _ hx

/-- C3: after registering twice under the same non-empty name (the second
entry differing, e.g. in its handler), lookup of that name yields the second
entry only, the name occurs exactly once in `getCommandList`, and an alias
declared only by the replaced first entry still resolves through the alias
index — to the replacing entry (the stale alias mapping is not retracted). -/
theorem reregistration_spec (st : CommandManagerState) (c₁ c₂ : CommandDefinition)
    (a : String)
    (hname : c₁.name = c₂.name) (hne : c₂.name ≠ "")
    (hnodup : (st.commands.map Prod.fst).Nodup)
    (ha : a ∈ c₁.aliases) (hae : a ≠ "") (han : a ≠ c₁.name)
    (hafresh : a ∉ st.commands.map Prod.fst) :
    findCommand (registerCommand (registerCommand st c₁).1 c₂).1 c₂.name = some c₂
    ∧ (getCommandList (registerCommand (registerCommand st c₁).1 c₂).1).count c₂.name = 1
    ∧ findCommand (registerCommand (registerCommand st c₁).1 c₂).1 a = some c₂ := by
  have hne₁ : c₁.name ≠ "" := by rw [hname]; exact hne
  have e₁c : (registerCommand st c₁).1.commands = mapSet st.commands c₁.name c₁ := by
    simp [registerCommand, hne₁]
  have e₁a : (registerCommand st c₁).1.aliasToCommand =
      c₁.aliases.foldl
        (fun m x => if x ≠ "" ∧ x ≠ c₁.name then mapSet m x c₁.name else m)
        st.aliasToCommand := by
    simp [registerCommand, hne₁]
  have e₂c : (registerCommand (registerCommand st c₁).1 c₂).1.commands =
      mapSet (registerCommand st c₁).1.commands c₂.name c₂ := by
    simp [registerCommand, hne]
  have e₂a : (registerCommand (registerCommand st c₁).1 c₂).1.aliasToCommand =
      c₂.aliases.foldl
        (fun m x => if x ≠ "" ∧ x ≠ c₂.name then mapSet m x c₂.name else m)
        (registerCommand st c₁).1.aliasToCommand := by
    simp [registerCommand, hne]
  have han₂ : a ≠ c₂.name := by rw [← hname]; exact han
  have hcmds : mapLookup (registerCommand (registerCommand st c₁).1 c₂).1.commands a
      = none := by
    rw [e₂c, mapLookup_mapSet_ne _ _ han₂, e₁c, mapLookup_mapSet_ne _ _ han,
      mapLookup_eq_none_of_not_mem hafresh]
  have hali : mapLookup (registerCommand (registerCommand st c₁).1 c₂).1.aliasToCommand a
      = some c₂.name := by
    rw [e₂a]
    apply aliasFold_preserves
    rw [e₁a, ← hname]
    exact aliasFold_sets c₁.name a hae han c₁.aliases st.aliasToCommand ha
  refine ⟨?_, ?_, ?_⟩
  · simp [findCommand, e₂c, mapLookup_mapSet_self]
  · have hkeys :
        ((registerCommand (registerCommand st c₁).1 c₂).1.commands.map Prod.fst).Nodup := by
      rw [e₂c]
      exact nodup_keys_mapSet (by rw [e₁c]; exact nodup_keys_mapSet hnodup)
    have hmem :
        c₂.name ∈ (registerCommand (registerCommand st c₁).1 c₂).1.commands.map Prod.fst := by
      rw [e₂c]
      exact mem_keys_mapSet _ c₂.name c₂
    simpa [getCommandList] using List.count_eq_one_of_mem hkeys hmem
  · have hcmds' :
        mapLookup (mapSet (registerCommand st c₁).1.commands c₂.name c₂) a = none := by
      rw [← e₂c]; exact hcmds
    simp [findCommand, hcmds', hali, e₂c, mapLookup_mapSet_self]

/-- The first registration: command `list` with alias `ls` and a succeeding
handler. -/
def regFirstDef : CommandDefinition :=
  { name := "list", aliases := ["ls"], executor := some (fun _ => Except.ok true) }

/-- The replacing registration: same name `list`, no aliases, a different
handler. -/
def regSecondDef : CommandDefinition :=
  { name := "list", executor := some (fun _ => Except.ok false) }

/-- The registry after registering `regFirstDef` and then `regSecondDef`. -/
def reregState : CommandManagerState :=
  (registerCommand (registerCommand {} regFirstDef).1 regSecondDef).1

/-- Witness for C3: with the two concrete registrations, `list` resolves to
the second entry, occurs once in the listing, and the stale alias `ls` still
resolves — to the second entry. -/
theorem reregistration_spec_witness :
    findCommand reregState "list" = some regSecondDef
    ∧ (getCommandList reregState).count "list" = 1
    ∧ findCommand reregState "ls" = some regSecondDef := by
  have h :=
    reregistration_spec {} regFirstDef regSecondDef "ls" rfl (by decide)
      (by simp) (by decide) (by decide) (by decide) (by simp)
  exact h

/-! ### C9 — createCommand does not install alias mappings -/

lemma catAppend_lookup (m : List (String × List String)) (cat nm : String) :
    mapLookup (catAppend m cat nm) cat =
      some ((mapLookup m cat).getD [] ++ [nm]) := by
  unfold catAppend
  cases h : mapLookup m cat with
  | some l => simp [mapLookup_mapSet_self]
  | none => simp [mapLookup_append_none _ h, mapLookup]

/-- C9: `createCommand(name, description)` inserts the entry into the byName
map and appends the name to its (default `"General"`) category list, but
leaves the alias index unchanged; an alias subsequently added via `addAlias`
on the reference `createCommand` returns also leaves it unchanged, so
`findCommand` under such an alias (one that is neither a command name nor an
alias installed by `registerCommand`) returns nothing. -/
theorem createCommand_frame (st : CommandManagerState) (n descr a : String) :
    (createCommand st n descr).aliasToCommand = st.aliasToCommand
    ∧ (addAliasToStored (createCommand st n descr) n a).aliasToCommand =
        st.aliasToCommand
    ∧ mapLookup (createCommand st n descr).commands n =
        some { name := n, description := descr }
    ∧ mapLookup (createCommand st n descr).categoryToCommands "General" =
        some ((mapLookup st.categoryToCommands "General").getD [] ++ [n])
    ∧ (a ∉ st.commands.map Prod.fst → a ≠ n →
        mapLookup st.aliasToCommand a = none →
        findCommand (addAliasToStored (createCommand st n descr) n a) a = none) := by
  have hlookraw : mapLookup
      (mapSet st.commands n ({ name := n, description := descr } : CommandDefinition)) n =
      some { name := n, description := descr } :=
    mapLookup_mapSet_self _ _ _
  have hlook : mapLookup (createCommand st n descr).commands n =
      some { name := n, description := descr } := hlookraw
  have hal₁ : (createCommand st n descr).aliasToCommand = st.aliasToCommand := rfl
  have hal₂ : (addAliasToStored (createCommand st n descr) n a).aliasToCommand =
      st.aliasToCommand := by
    simp only [addAliasToStored, createCommand, hlookraw]
  refine ⟨hal₁, hal₂, hlook, ?_, ?_⟩
  · have : (createCommand st n descr).categoryToCommands =
        catAppend st.categoryToCommands "General" n := rfl
    rw [this, catAppend_lookup]
  · intro hmem han halias
    have ec : (addAliasToStored (createCommand st n descr) n a).commands =
        mapSet (mapSet st.commands n { name := n, description := descr }) n
          (CommandDefinition.addAlias { name := n, description := descr } a) := by
      simp only [addAliasToStored, createCommand, hlookraw]
    have hcnone :
        mapLookup (addAliasToStored (createCommand st n descr) n a).commands a = none := by
      rw [ec, mapLookup_mapSet_ne _ _ han, mapLookup_mapSet_ne _ _ han,
        mapLookup_eq_none_of_not_mem hmem]
    simp [findCommand, hcnone, hal₂, halias]

/-- Witness for C9: after `createCommand("echo", "prints")` and adding alias
`"e"` through the returned reference, the alias map is still empty and
`findCommand("e")` returns nothing. -/
theorem createCommand_frame_witness :
    (addAliasToStored (createCommand {} "echo" "prints") "echo" "e").aliasToCommand = []
    ∧ findCommand (addAliasToStored (createCommand {} "echo" "prints") "echo" "e") "e"
        = none := by
  have h := createCommand_frame {} "echo" "prints" "e"
  exact ⟨by rw [h.2.1], h.2.2.2.2 (by simp) (by decide) rfl⟩

/-! ### Step lemmas for the option-token cases of the scanner -/

lemma parseLoop_skip (ctx : CommandContext) (t : String) (rest : List String) :
    parseLoopAux ctx true (t :: rest) = parseLoopAux ctx false rest := by
  simp [parseLoopAux]

lemma parseLoop_step_long (ctx : CommandContext) (d : Char) (ds : List Char)
    (rest : List String) :
    parseLoopAux ctx false (String.mk ('-' :: '-' :: d :: ds) :: rest) =
      parseLoopAux (parseLongOption (String.mk (d :: ds)) rest.head? ctx).1
        (parseLongOption (String.mk (d :: ds)) rest.head? ctx).2 rest := by
  have hne : String.mk ('-' :: '-' :: d :: ds) ≠ "--" := by
    intro h
    have h2 : ('-' :: '-' :: d :: ds) = "--".data := congrArg String.data h
    rw [show "--".data = ['-', '-'] from rfl] at h2
    simp at h2
  have hlen : 2 < strLen (String.mk ('-' :: '-' :: d :: ds)) := by
    simp [strLen]
  have hpre : strStarts "--" (String.mk ('-' :: '-' :: d :: ds)) = true := by
    simp [strStarts, show "--".data = ['-', '-'] from rfl, List.isPrefixOf]
  have hdrop : strDrop (String.mk ('-' :: '-' :: d :: ds)) 2 = String.mk (d :: ds) := rfl
  simp only [parseLoopAux]
  rw [if_neg (by simp), if_neg hne, if_pos ⟨hlen, hpre⟩, hdrop]

lemma parseLoop_step_short (ctx : CommandContext) (c : Char) (cs : List Char)
    (rest : List String) (hc : c ≠ '-') :
    parseLoopAux ctx false (String.mk ('-' :: c :: cs) :: rest) =
      parseLoopAux (parseShortOption (String.mk (c :: cs)) rest.head? ctx).1
        (parseShortOption (String.mk (c :: cs)) rest.head? ctx).2 rest := by
  have hne : String.mk ('-' :: c :: cs) ≠ "--" := by
    intro h
    have h2 : ('-' :: c :: cs) = "--".data := congrArg String.data h
    rw [show "--".data = ['-', '-'] from rfl] at h2
    simp at h2
    exact hc h2.1
  have hnotlong : ¬ (2 < strLen (String.mk ('-' :: c :: cs))
      ∧ strStarts "--" (String.mk ('-' :: c :: cs)) = true) := by
    rintro ⟨-, hpre⟩
    simp [strStarts, show "--".data = ['-', '-'] from rfl, List.isPrefixOf] at hpre
    exact hc hpre.symm
  have hlen : 1 < strLen (String.mk ('-' :: c :: cs)) := by
    simp [strLen]
  have hpre : strStarts "-" (String.mk ('-' :: c :: cs)) = true := by
    simp [strStarts, show "-".data = ['-'] from rfl, List.isPrefixOf]
  have hdrop : strDrop (String.mk ('-' :: c :: cs)) 1 = String.mk (c :: cs) := rfl
  simp only [parseLoopAux]
  rw [if_neg (by simp), if_neg hne, if_neg hnotlong, if_pos ⟨hlen, hpre⟩, hdrop]

/-! ### C4 — long options -/

lemma splitAtFirstEq_of_contains (l : List Char) (h : l.contains '=' = true) :
    splitAtFirstEq l =
      some (l.takeWhile (fun ch => ch != '='),
        (l.dropWhile (fun ch => ch != '=')).tail) := by
  induction l with
  | nil => simp at h
  | cons c cs ih =>
      by_cases hc : c = '='
      · subst hc
        simp [splitAtFirstEq, List.takeWhile, List.dropWhile]
      · have hb : (c != '=') = true := by simp [hc]
        have h' : cs.contains '=' = true := by
          simp only [List.contains_cons, Bool.or_eq_true, beq_iff_eq] at h
          rcases h with h | h
          · exact absurd h.symm hc
          · exact h
        simp [splitAtFirstEq, hc, ih h', List.takeWhile, List.dropWhile, hb]

lemma splitAtFirstEq_of_not_contains (l : List Char) (h : l.contains '=' = false) :
    splitAtFirstEq l = none := by
  induction l with
  | nil => simp [splitAtFirstEq]
  | cons c cs ih =>
      simp only [List.contains_cons, Bool.or_eq_false_iff] at h
      have hc : ¬ c = '=' := by
        intro hh
        subst hh
        simp at h
      simp [splitAtFirstEq, hc, ih h.2]

/-- C4: a scanned token longer than two characters beginning with `"--"`
(written `'-' :: '-' :: d :: ds`, key `d :: ds`) is handled thus: with an
`'='` present, the key/value split at the first `'='` is stored into
`options`; otherwise a following token not starting with `'-'` is consumed as
the value (the cursor skipping it); otherwise the key becomes a flag. In
particular `--port=8080` and `--port 8080` both give `options["port"] =
"8080"`, while `--port --verbose` makes `port` a valueless flag and leaves
`--verbose` unconsumed (it becomes the flag `verbose`). -/
theorem longOption_spec (ctx : CommandContext) (d : Char) (ds : List Char)
    (rest : List String) :
    ((d :: ds).contains '=' = true →
      parseLoopAux ctx false (String.mk ('-' :: '-' :: d :: ds) :: rest) =
        parseLoopAux
          { ctx with
              options :=
                mapSet ctx.options
                  (String.mk ((d :: ds).takeWhile (fun ch => ch != '=')))
                  (String.mk (((d :: ds).dropWhile (fun ch => ch != '=')).tail)) }
          false rest)
    ∧ ((d :: ds).contains '=' = false →
        (∀ next rest', rest = next :: rest' → strStarts "-" next = false →
          parseLoopAux ctx false (String.mk ('-' :: '-' :: d :: ds) :: rest) =
            parseLoopAux
              { ctx with options := mapSet ctx.options (String.mk (d :: ds)) next }
              false rest')
        ∧ (∀ next rest', rest = next :: rest' → strStarts "-" next = true →
            parseLoopAux ctx false (String.mk ('-' :: '-' :: d :: ds) :: rest) =
              parseLoopAux
                { ctx with flags := addFlagList ctx.flags (String.mk (d :: ds)) }
                false rest)
        ∧ (rest = [] →
            parseLoopAux ctx false [String.mk ('-' :: '-' :: d :: ds)] =
              { ctx with flags := addFlagList ctx.flags (String.mk (d :: ds)) }))
    ∧ (parseArgs ["cmd", "--port=8080"]).getOption "port" = some "8080"
    ∧ (parseArgs ["cmd", "--port", "8080"]).getOption "port" = some "8080"
    ∧ (parseArgs ["cmd", "--port", "--verbose"]).hasFlag "port" = true
    ∧ (parseArgs ["cmd", "--port", "--verbose"]).getOption "port" = none
    ∧ (parseArgs ["cmd", "--port", "--verbose"]).hasFlag "verbose" = true := by
  constructor
  · intro h
    rw [parseLoop_step_long]
    simp [parseLongOption, splitAtFirstEq_of_contains _ h]
  constructor
  · intro h
    refine ⟨?_, ?_, ?_⟩
    · intro next rest' hrest hnext
      subst hrest
      rw [parseLoop_step_long]
      simp [parseLongOption, splitAtFirstEq_of_not_contains _ h, hnext, parseLoop_skip]
    · intro next rest' hrest hnext
      subst hrest
      rw [parseLoop_step_long]
      simp [parseLongOption, splitAtFirstEq_of_not_contains _ h, hnext]
    · intro hrest
      subst hrest
      rw [parseLoop_step_long]
      simp [parseLongOption, splitAtFirstEq_of_not_contains _ h, parseLoopAux]
  exact ⟨by decide, by decide, by decide, by decide, by decide⟩

/-- Witness for C4: the three concrete behaviours from the claim, obtained by
applying the characterisation at a concrete instantiation. -/
theorem longOption_spec_witness :
    (parseArgs ["cmd", "--port=8080"]).getOption "port" = some "8080"
    ∧ (parseArgs ["cmd", "--port", "8080"]).getOption "port" = some "8080"
    ∧ (parseArgs ["cmd", "--port", "--verbose"]).hasFlag "port" = true
    ∧ (parseArgs ["cmd", "--port", "--verbose"]).hasFlag "verbose" = true := by
  have h := longOption_spec {} 'p' [] []
  exact ⟨h.2.2.1, h.2.2.2.1, h.2.2.2.2.1, h.2.2.2.2.2.2⟩

/-! ### C6 — short options -/

/-- C6: a scanned token longer than one character starting with `'-'` and not
matching the long-option rule (here `'-' :: c :: cs` with `c ≠ '-'`) is parsed
with the dash stripped. If exactly one character remains it follows the same
value-or-flag logic as long options, keyed by that character; if several
remain, each becomes an independent boolean flag and none consumes a value —
`parse(["cmd","-xyz"]).flags == {"x","y","z"}` even when a non-dash token
follows (`["cmd","-xyz","val"]` keeps `val` positional and consumes nothing). -/
theorem shortOption_spec (ctx : CommandContext) (c : Char) (rest : List String)
    (hc : c ≠ '-') :
    ((∀ next rest', rest = next :: rest' → strStarts "-" next = false →
        parseLoopAux ctx false (String.mk ['-', c] :: rest) =
          parseLoopAux
            { ctx with options := mapSet ctx.options (String.mk [c]) next }
            false rest')
      ∧ (∀ next rest', rest = next :: rest' → strStarts "-" next = true →
          parseLoopAux ctx false (String.mk ['-', c] :: rest) =
            parseLoopAux
              { ctx with flags := addFlagList ctx.flags (String.mk [c]) }
              false rest)
      ∧ (rest = [] →
          parseLoopAux ctx false [String.mk ['-', c]] =
            { ctx with flags := addFlagList ctx.flags (String.mk [c]) }))
    ∧ (∀ (c₂ : Char) (cs : List Char),
        parseLoopAux ctx false (String.mk ('-' :: c :: c₂ :: cs) :: rest) =
          parseLoopAux
            { ctx with
                flags :=
                  (c :: c₂ :: cs).foldl
                    (fun fs ch => addFlagList fs (String.mk [ch])) ctx.flags }
            false rest)
    ∧ (parseArgs ["cmd", "-xyz"]).flags = ["x", "y", "z"]
    ∧ (parseArgs ["cmd", "-xyz", "val"]).flags = ["x", "y", "z"]
    ∧ (parseArgs ["cmd", "-xyz", "val"]).args = ["val"]
    ∧ (parseArgs ["cmd", "-xyz", "val"]).options = [] := by
  constructor
  · refine ⟨?_, ?_, ?_⟩
    · intro next rest' hrest hnext
      subst hrest
      rw [parseLoop_step_short ctx c [] _ hc]
      simp [parseShortOption, hnext, parseLoop_skip]
    · intro next rest' hrest hnext
      subst hrest
      rw [parseLoop_step_short ctx c [] _ hc]
      simp [parseShortOption, hnext]
    · intro hrest
      subst hrest
      rw [parseLoop_step_short ctx c [] _ hc]
      simp [parseShortOption, parseLoopAux]
  constructor
  · intro c₂ cs
    rw [parseLoop_step_short ctx c (c₂ :: cs) _ hc]
    simp [parseShortOption]
  exact ⟨by decide, by decide, by decide, by decide⟩

/-- Witness for C6: the bundled-flags behaviour at the concrete inputs of the
claim, obtained from the characterisation with `c := 'x'`. -/
theorem shortOption_spec_witness :
    (parseArgs ["cmd", "-xyz"]).flags = ["x", "y", "z"]
    ∧ (parseArgs ["cmd", "-xyz", "val"]).flags = ["x", "y", "z"]
    ∧ (parseArgs ["cmd", "-xyz", "val"]).args = ["val"] := by
  have h := shortOption_spec {} 'x' [] (by decide)
  exact ⟨h.2.2.1, h.2.2.2.1, h.2.2.2.2.1⟩

/-! ### C7 — the suggestion scan -/

lemma isSimilar_imp (a b : String) (h : isSimilar a b = true) :
    a.data.isPrefixOf b.data = true
    ∨ (max (strLen a) (strLen b) - min (strLen a) (strLen b) ≤ 2
        ∧ 3 * max (strLen a) (strLen b) < 5 * matchCount a.data b.data) := by
  unfold isSimilar at h
  by_cases h1 : (a.data.isEmpty || b.data.isEmpty) = true
  · rw [if_pos h1] at h; exact absurd h (by simp)
  · rw [if_neg h1] at h
    by_cases h2 : a.data.isPrefixOf b.data = true
    · exact Or.inl h2
    · rw [if_neg h2] at h
      by_cases h3 : 2 < max (strLen a) (strLen b) - min (strLen a) (strLen b)
      · rw [if_pos h3] at h; exact absurd h (by simp)
      · rw [if_neg h3] at h
        by_cases h4 : 3 * max (strLen a) (strLen b) < 5 * matchCount a.data b.data
        · exact Or.inr ⟨by omega, h4⟩
        · rw [if_neg h4] at h; exact absurd h (by simp)

lemma suggestLoop_mem (q : String) (limit : Nat) :
    ∀ (cands acc : List String) (x : String),
      x ∈ suggestLoop q limit acc cands → x ∈ acc ∨ isSimilar q x = true := by
  intro cands
  induction cands with
  | nil => intro acc x hx; exact Or.inl (by simpa [suggestLoop] using hx)
  | cons c cs ih =>
      intro acc x hx
      by_cases hsim : isSimilar q c = true
      · simp only [suggestLoop, if_pos hsim] at hx
        by_cases hlim : limit ≤ acc.length + 1
        · rw [if_pos hlim] at hx
          rcases List.mem_append.mp hx with h | h
          · exact Or.inl h
          · simp only [List.mem_singleton] at h; subst h; exact Or.inr hsim
        · rw [if_neg hlim] at hx
          rcases ih (acc ++ [c]) x hx with h | h
          · rcases List.mem_append.mp h with h | h
            · exact Or.inl h
            · simp only [List.mem_singleton] at h; subst h; exact Or.inr hsim
          · exact Or.inr h
      · simp only [suggestLoop, if_neg hsim] at hx
        exact ih acc x hx

lemma suggestLoop_length (q : String) (limit : Nat) :
    ∀ (cands acc : List String), acc.length < limit →
      (suggestLoop q limit acc cands).length ≤ limit := by
  intro cands
  induction cands with
  | nil => intro acc h; simpa [suggestLoop] using Nat.le_of_lt h
  | cons c cs ih =>
      intro acc h
      by_cases hsim : isSimilar q c = true
      · simp only [suggestLoop, if_pos hsim]
        by_cases hlim : limit ≤ acc.length + 1
        · rw [if_pos hlim]
          simp only [List.length_append, List.length_singleton]
          omega
        · rw [if_neg hlim]
          exact ih (acc ++ [c]) (by simp only [List.length_append, List.length_singleton]; omega)
      · simp only [suggestLoop, if_neg hsim]
        exact ih acc h

/-- C7 (amended): every candidate returned by the unknown-command suggestion
scan over the registered names satisfies the similarity predicate — the
candidate starts with the query as a literal case-sensitive prefix, or the
two lengths differ by at most 2 and the fraction of index-aligned equal
characters over the longer length strictly exceeds 0.6 (stated exactly as
5·matches > 3·maxLen) — and when the configured limit is at least 1, at most
`maxSuggestions` candidates are returned, the scan stopping once that many
matches are collected. With limit 0 a first match is still returned, because
the stop check follows the collection of a match. -/
theorem suggestions_spec (st : CommandManagerState) (q : String)
    (hlim : 1 ≤ st.maxSuggestions) :
    (∀ b ∈ collectSuggestions q (getCommandList st) st.maxSuggestions,
        q.data.isPrefixOf b.data = true
        ∨ (max (strLen q) (strLen b) - min (strLen q) (strLen b) ≤ 2
            ∧ 3 * max (strLen q) (strLen b) < 5 * matchCount q.data b.data))
    ∧ (collectSuggestions q (getCommandList st) st.maxSuggestions).length
        ≤ st.maxSuggestions := by
  constructor
  · intro b hb
    rcases suggestLoop_mem q st.maxSuggestions (getCommandList st) [] b hb with h | h
    · simp at h
    · exact isSimilar_imp q b h
  · exact suggestLoop_length q st.maxSuggestions (getCommandList st) []
      (by simp only [List.length_nil]; omega)

/-- A registry with the candidate names of the spec's example and suggestion
limit 2. -/
def suggestDemoState : CommandManagerState :=
  { commands := [("status", { name := "status" }), ("stat", { name := "stat" }),
      ("start", { name := "start" }), ("stop", { name := "stop" })],
    maxSuggestions := 2 }

/-- Witness for C7: at query `"stats"` over those candidates with limit 2, the
scan returns `["status", "stat"]`, and the bound from the theorem holds. -/
theorem suggestions_spec_witness :
    collectSuggestions "stats" (getCommandList suggestDemoState)
        suggestDemoState.maxSuggestions = ["status", "stat"]
    ∧ (collectSuggestions "stats" (getCommandList suggestDemoState)
        suggestDemoState.maxSuggestions).length ≤ suggestDemoState.maxSuggestions := by
  exact ⟨by decide, (suggestions_spec suggestDemoState "stats" (by decide)).2⟩

/-- Counterexample to C7 as stated: with the configured limit 0, the scan
still returns one candidate (the stop check `size >= limit` runs only after a
match has been pushed), exceeding the claimed bound of at most 0. -/
theorem suggestions_limit_zero_cx :
    collectSuggestions "stat" ["status"] 0 = ["status"]
    ∧ ¬ ((collectSuggestions "stat" ["status"] 0).length ≤ 0) := by
  exact ⟨by decide, by decide⟩

end ConsoleCommand
